import Mathlib

/-
A shallow embedding of src/env_audit/cli.py: the env-file parser
(parse_env_file), the type checker (validate_type) and the schema walk
(validate_env), together with proofs about them.

Strings are modelled as lists of characters; Python dicts as association
lists in insertion order; Python exceptions as the error side of Except.
-/

namespace EnvAudit

/-- Strings are modelled as lists of characters. -/
abbrev Str := List Char

/-- The apostrophe character. -/
def squote : Char := Char.ofNat 39

/-- Characters removed by the argument-free Python str.strip, restricted to
the ASCII whitespace characters. -/
def isPySpace (c : Char) : Bool :=
  c = ' ' || c = '\t' || c = '\n' || c = '\r' || c = '\x0b' || c = '\x0c'

/-- The two characters removed by the strip call on values in
parse_env_file: the double quote and the single quote. -/
def isQuote (c : Char) : Bool :=
  c = '"' || c = squote

/-- Drop trailing characters satisfying p. -/
def rstrip (p : Char → Bool) (s : Str) : Str :=
  (s.reverse.dropWhile p).reverse

/-- Python str.strip(chars): drop leading and trailing characters
satisfying p, as many as there are. -/
def pyStripChars (p : Char → Bool) (s : Str) : Str :=
  rstrip p (s.dropWhile p)

/-- Python str.strip() with no argument. -/
def pyStrip (s : Str) : Str := pyStripChars isPySpace s

/-- Python value.strip(chars) for the quote characters. -/
def stripQuotes (s : Str) : Str := pyStripChars isQuote s

/-- Split text into lines at newline characters, modelling the
str.splitlines call of parse_env_file.  The read_text step translates
carriage returns to newlines, so the newline is the only separator; the
rarer control characters str.splitlines also breaks at are not modelled.
Unlike splitlines this yields a final empty line after a trailing newline
and one empty line for empty input, but such blank lines are skipped by
the parser and never numbered in an error. -/
def splitNl : Str → List Str
  | [] => [[]]
  | c :: cs =>
    if c = '\n' then [] :: splitNl cs
    else
      match splitNl cs with
      | [] => [[c]]
      | l :: ls => (c :: l) :: ls

/-- The outcome of one iteration of the parse_env_file loop on a raw line:
the line is skipped (blank or comment), rejected (no equals sign; the
stripped line is recorded, since that is what the message interpolates), or
yields a key/value assignment. -/
inductive LineResult where
  | skip
  | bad (line : Str)
  | assign (key value : Str)
deriving DecidableEq

/-- The body of the parse_env_file loop on one raw line: strip it, skip
blanks and comments, require an equals sign, split at the first equals
sign, strip the key, strip and unquote the value. -/
def processLine (raw : Str) : LineResult :=
  let line := pyStrip raw
  if line = [] then .skip
  else if line.head? = some '#' then .skip
  else if '=' ∈ line then
    .assign (pyStrip (line.takeWhile (fun c => c != '=')))
      (stripQuotes (pyStrip ((line.dropWhile (fun c => c != '=')).drop 1)))
  else .bad line

/-- Python dict assignment env_vars[k] = v on an association list:
overwrite in place if the key is present, else append. -/
def upsert (m : List (Str × Str)) (k v : Str) : List (Str × Str) :=
  match m with
  | [] => [(k, v)]
  | (k', v') :: rest => if k' = k then (k, v) :: rest else (k', v') :: upsert rest k v

/-- Python dict lookup env_vars.get(k). -/
def lookupStr (m : List (Str × Str)) (k : Str) : Option Str :=
  match m with
  | [] => none
  | (k', v) :: rest => if k' = k then some v else lookupStr rest k

/-- The message of the BadParameter exception raised by parse_env_file.
Note that the code interpolates the stripped line, the loop variable having
been rebound, not the raw line. -/
def errMsg (lineNum : Nat) (line : Str) : Str :=
  ( "Invalid syntax at line ").toList ++ (Nat.repr lineNum).toList ++ ( ": ").toList ++ line

/-- The loop of parse_env_file over the numbered lines, accumulating the
env_vars dict; lineNum is 1-based as in the enumerate call. -/
def parseLines (lineNum : Nat) (lines : List Str) (acc : List (Str × Str)) :
    Except Str (List (Str × Str)) :=
  match lines with
  | [] => .ok acc
  | l :: ls =>
    match processLine l with
    | .skip => parseLines (lineNum + 1) ls acc
    | .bad line => .error (errMsg lineNum line)
    | .assign k v => parseLines (lineNum + 1) ls (upsert acc k v)

/-- parse_env_file from src/env_audit/cli.py, applied to the text content
of the file (the path.read_text step is the external boundary). -/
def parse_env_file (content : Str) : Except Str (List (Str × Str)) :=
  parseLines 1 (splitNl content) []

/-- The tail of a Python integer literal after its first digit: digits,
with a single underscore allowed only between two digits. -/
def digitsCore : Str → Bool
  | [] => true
  | c :: r =>
    if c = '_' then
      match r with
      | [] => false
      | d :: r' => d.isDigit && digitsCore r'
    else c.isDigit && digitsCore r

/-- A nonempty run of digits with single underscores between digits. -/
def digitsUnderscoreOk : Str → Bool
  | [] => false
  | c :: r => c.isDigit && digitsCore r

/-- Success of the Python int(value) call in validate_type: optional
surrounding whitespace, an optional sign, then one or more digits with
single underscores allowed between digits.  Digits are modelled as the
ASCII decimal digits. -/
def pyIntOk (s : Str) : Bool :=
  match pyStrip s with
  | [] => false
  | c :: r => if c = '+' || c = '-' then digitsUnderscoreOk r else digitsUnderscoreOk (c :: r)

/-- Python str.lower, modelled on the ASCII letters. -/
def pyLower (s : Str) : Str := s.map Char.toLower

/-- The six strings accepted by the bool branch of validate_type. -/
def boolWords : List Str :=
  [ ( "true").toList, ( "false").toList, ( "1").toList,
    ( "0").toList, ( "yes").toList, ( "no").toList]

/-- validate_type from src/env_audit/cli.py. -/
def validate_type (value : Str) (expected_type : Str) : Bool :=
  if expected_type = ( "string").toList then true
  else if expected_type = ( "int").toList then pyIntOk value
  else if expected_type = ( "bool").toList then decide (pyLower value ∈ boolWords)
  else true

/-- A dynamic Python value as produced by yaml.safe_load: the shapes a
schema entry can take. -/
inductive YVal where
  | ynull
  | ybool (b : Bool)
  | yint (n : Int)
  | ystr (s : Str)
  | ymap (entries : List (Str × YVal))

/-- Python dict .get k on a dynamic mapping: the first binding of k. -/
def pyDictGet (m : List (Str × YVal)) (k : Str) : Option YVal :=
  match m with
  | [] => none
  | (k', v) :: rest => if k' = k then some v else pyDictGet rest k

/-- Python truthiness of a dynamic value, as tested by the if on the
required field. -/
def pyTruthy : YVal → Bool
  | .ynull => false
  | .ybool b => b
  | .yint n => decide (n ≠ 0)
  | .ystr s => !s.isEmpty
  | .ymap m => !m.isEmpty

/-- Python equality between a dynamic value and a string literal, as in the
comparisons of validate_type when the type field comes from the schema. -/
def yvalIsStr (v : YVal) (s : Str) : Bool :=
  match v with
  | .ystr s' => decide (s' = s)
  | _ => false

/-- Python str() rendering of a dynamic value, for the f-string of the type
mismatch message.  Only the ystr case can reach a message: validate_type
returns true on every non-string type value, so no error is emitted then.
The ymap rendering is a placeholder for that unreachable case. -/
def pyStr : YVal → Str
  | .ystr s => s
  | .ybool true => ( "True").toList
  | .ybool false => ( "False").toList
  | .yint n => (Int.repr n).toList
  | .ynull => ( "None").toList
  | .ymap _ => []

/-- validate_type as invoked from validate_env, where the expected type is
a dynamic value read from the schema. -/
def validate_type_dyn (value : Str) (expected_type : YVal) : Bool :=
  if yvalIsStr expected_type (( "string").toList) then true
  else if yvalIsStr expected_type (( "int").toList) then pyIntOk value
  else if yvalIsStr expected_type (( "bool").toList) then decide (pyLower value ∈ boolWords)
  else true

/-- The missing required variable message of validate_env. -/
def missingMsg (name : Str) : Str :=
  ( "Missing required variable: ").toList ++ name

/-- The type mismatch message of validate_env, with the expected type
already rendered to text. -/
def typeMsg (name : Str) (ty : Str) (value : Str) : Str :=
  name ++ ( ": expected ").toList ++ ty ++ ( ", got \x27").toList ++ value ++ ( "\x27").toList

/-- The loop of validate_env with its errors accumulator.  The error side
models an uncaught Python exception: rules.get fails when a schema value is
not a mapping. -/
def validate_env_go (env : List (Str × Str)) (schema : List (Str × YVal))
    (errors : List Str) : Except Str (List Str) :=
  match schema with
  | [] => .ok errors
  | (var_name, rules) :: rest =>
    match rules with
    | .ymap m =>
      let is_required := pyTruthy ((pyDictGet m (( "required").toList)).getD (.ybool false))
      let expected_type := (pyDictGet m (( "type").toList)).getD (.ystr (( "string").toList))
      match lookupStr env var_name with
      | none =>
        if is_required then
          validate_env_go env rest (errors ++ [missingMsg var_name])
        else validate_env_go env rest errors
      | some value =>
        if validate_type_dyn value expected_type then validate_env_go env rest errors
        else validate_env_go env rest (errors ++ [typeMsg var_name (pyStr expected_type) value])
    | _ => .error (( "AttributeError").toList)

/-- validate_env from src/env_audit/cli.py. -/
def validate_env (env : List (Str × Str)) (schema : List (Str × YVal)) :
    Except Str (List Str) :=
  validate_env_go env schema []

/- Spec-side definitions: these follow the words of the claims, to be
compared with the embedded code. -/

/-- The integer shape claimed for the int branch of validate_type: an
optional leading minus sign followed by one or more decimal digits and
nothing else. -/
def claimedIntShape (s : Str) : Bool :=
  match s with
  | '-' :: r => !r.isEmpty && r.all Char.isDigit
  | _ => !s.isEmpty && s.all Char.isDigit

/-- No two adjacent underscores. -/
def noAdjUnderscore : Str → Bool
  | [] => true
  | [_] => true
  | c :: d :: r => !(c = '_' && d = '_') && noAdjUnderscore (d :: r)

/-- The amended integer shape: after stripping surrounding whitespace and
an optional leading plus or minus sign, a nonempty run of decimal digits
and underscores that neither starts nor ends with an underscore and has no
two adjacent underscores. -/
def amendedIntShape (s : Str) : Bool :=
  let t := pyStrip s
  let body := match t with
    | c :: r => if c = '+' || c = '-' then r else t
    | [] => t
  !body.isEmpty && body.all (fun c => c.isDigit || c = '_') &&
    (body.head? != some '_') && (body.getLast? != some '_') && noAdjUnderscore body

/-- Spec-side reading of a well-typed rule mapping: the required field is
true.  Absent field means false. -/
def ruleRequired (m : List (Str × YVal)) : Bool :=
  match pyDictGet m (( "required").toList) with
  | some (.ybool b) => b
  | _ => false

/-- Spec-side reading of a well-typed rule mapping: the type field,
defaulting to string. -/
def ruleType (m : List (Str × YVal)) : Str :=
  match pyDictGet m (( "type").toList) with
  | some (.ystr s) => s
  | _ => ( "string").toList

/-- The error, if any, that the spec attributes to one schema entry: a
missing message for an absent required variable, a type message for a
present variable whose value fails the rule type, nothing otherwise. -/
def specEntryError (env : List (Str × Str)) : Str × YVal → Option Str
  | (name, .ymap m) =>
    (match lookupStr env name with
     | none => if ruleRequired m then some (missingMsg name) else none
     | some v =>
       if validate_type v (ruleType m) then none
       else some (typeMsg name (ruleType m) v))
  | _ => none

/-- A rule field that is absent or a boolean. -/
def optBoolShape : Option YVal → Bool
  | none => true
  | some (.ybool _) => true
  | _ => false

/-- A rule field that is absent or a string. -/
def optStrShape : Option YVal → Bool
  | none => true
  | some (.ystr _) => true
  | _ => false

/-- A schema value that is a rule mapping whose optional required field is
boolean and whose optional type field is a string. -/
def ruleShape : YVal → Bool
  | .ymap m =>
    optBoolShape (pyDictGet m (( "required").toList)) &&
      optStrShape (pyDictGet m (( "type").toList))
  | _ => false

/-- Replace a rule mapping by one with both fields written out explicitly,
absent fields filled with the defaults required = false and type = string;
other values are left alone. -/
def fillRule : Str × YVal → Str × YVal
  | (n, .ymap m) =>
    (n, .ymap [((( "required").toList), (pyDictGet m (( "required").toList)).getD (.ybool false)),
               ((( "type").toList), (pyDictGet m (( "type").toList)).getD (.ystr (( "string").toList)))])
  | q => q

/-- Fill the defaults of every entry of a schema. -/
def fillDefaults (schema : List (Str × YVal)) : List (Str × YVal) :=
  schema.map fillRule

/-- The value of the last line that assigns to key k, if any: later lines
take priority. -/
def lastAssign (ls : List Str) (k : Str) : Option Str :=
  match ls with
  | [] => none
  | l :: rest =>
    match lastAssign rest k with
    | some v => some v
    | none =>
      match processLine l with
      | .assign k' v => if k' = k then some v else none
      | _ => none

/-- The first character, if any, does not satisfy p. -/
def headNot (p : Char → Bool) (s : Str) : Bool :=
  match s with
  | [] => true
  | c :: _ => !(p c)

/-- The last character, if any, does not satisfy p. -/
def lastNot (p : Char → Bool) (s : Str) : Bool :=
  headNot p s.reverse

/-- A line that survives trimming and comment/blank filtering but has no
equals sign: the lines parse_env_file rejects. -/
def noEqLine (raw : Str) : Prop :=
  pyStrip raw ≠ [] ∧ (pyStrip raw).head? ≠ some '#' ∧ '=' ∉ pyStrip raw

instance (raw : Str) : Decidable (noEqLine raw) := by
  unfold noEqLine; infer_instance

/-- The invariants of a key produced by the parser: whitespace-trimmed,
free of equals signs and newlines, not starting with a hash. -/
def KeyGood (k : Str) : Prop :=
  pyStrip k = k ∧ '=' ∉ k ∧ headNot (fun c => c = '#') k = true ∧ '\n' ∉ k

/-- The invariants of a value produced by the parser: no quote character at
either end, no newline inside. -/
def ValGood (v : Str) : Prop :=
  headNot isQuote v = true ∧ lastNot isQuote v = true ∧ '\n' ∉ v

/- Helper lemmas on stripping. -/

theorem dropWhile_head_false (p : Char → Bool) :
    ∀ (l : Str) (c : Char) (r : Str), l.dropWhile p = c :: r → p c = false := by
  intro l
  induction l with
  | nil => intro c r h; simp [List.dropWhile] at h
  | cons x xs ih =>
    intro c r h
    rw [List.dropWhile_cons] at h
    by_cases hx : p x
    · rw [if_pos hx] at h; exact ih c r h
    · rw [if_neg hx] at h
      cases h
      simpa using hx

theorem headNot_dropWhile (p : Char → Bool) (l : Str) :
    headNot p (l.dropWhile p) = true := by
  cases h : l.dropWhile p with
  | nil => rfl
  | cons c r => simp [headNot, dropWhile_head_false p l c r h]

theorem rstrip_decomp (p : Char → Bool) (l : Str) :
    ∃ t, l = rstrip p l ++ t ∧ ∀ c ∈ t, p c = true := by
  refine ⟨(l.reverse.takeWhile p).reverse, ?_, ?_⟩
  · have h : l.reverse.takeWhile p ++ l.reverse.dropWhile p = l.reverse :=
      List.takeWhile_append_dropWhile p l.reverse
    have h2 := congrArg List.reverse h
    rw [List.reverse_append, List.reverse_reverse] at h2
    exact h2.symm
  · intro c hc
    rw [List.mem_reverse] at hc
    exact List.mem_takeWhile_imp hc

theorem pyStripChars_decomp (p : Char → Bool) (s : Str) :
    ∃ pre post, (∀ c ∈ pre, p c = true) ∧ (∀ c ∈ post, p c = true) ∧
      s = pre ++ pyStripChars p s ++ post := by
  obtain ⟨post, hd, hp⟩ := rstrip_decomp p (s.dropWhile p)
  refine ⟨s.takeWhile p, post, ?_, hp, ?_⟩
  · intro c hc; exact List.mem_takeWhile_imp hc
  · calc s = s.takeWhile p ++ s.dropWhile p := (List.takeWhile_append_dropWhile p s).symm
      _ = s.takeWhile p ++ (rstrip p (s.dropWhile p) ++ post) := by rw [← hd]
      _ = s.takeWhile p ++ pyStripChars p s ++ post := by
          rw [pyStripChars, List.append_assoc]

theorem pyStripChars_headNot (p : Char → Bool) (s : Str) :
    headNot p (pyStripChars p s) = true := by
  cases h : pyStripChars p s with
  | nil => rfl
  | cons c r =>
    obtain ⟨t, hd, _⟩ := rstrip_decomp p (s.dropWhile p)
    rw [show rstrip p (s.dropWhile p) = pyStripChars p s from rfl, h] at hd
    have hf := dropWhile_head_false p s c (r ++ t) (by simpa using hd)
    simp [headNot, hf]

theorem pyStripChars_lastNot (p : Char → Bool) (s : Str) :
    lastNot p (pyStripChars p s) = true := by
  unfold lastNot
  rw [show pyStripChars p s = rstrip p (s.dropWhile p) from rfl]
  rw [rstrip, List.reverse_reverse]
  exact headNot_dropWhile p (s.dropWhile p).reverse

theorem dropWhile_of_headNot (p : Char → Bool) (s : Str) (h : headNot p s = true) :
    s.dropWhile p = s := by
  cases s with
  | nil => rfl
  | cons c r =>
    have hc : p c = false := by simpa [headNot] using h
    simp [List.dropWhile_cons, hc]

theorem pyStripChars_fix (p : Char → Bool) (s : Str) (h1 : headNot p s = true)
    (h2 : lastNot p s = true) : pyStripChars p s = s := by
  unfold lastNot at h2
  unfold pyStripChars rstrip
  rw [dropWhile_of_headNot p s h1, dropWhile_of_headNot p s.reverse h2,
    List.reverse_reverse]

theorem pyStripChars_subset (p : Char → Bool) (s : Str) :
    ∀ c, c ∈ pyStripChars p s → c ∈ s := by
  intro c hc
  obtain ⟨pre, post, _, _, hs⟩ := pyStripChars_decomp p s
  rw [hs]
  simp only [List.mem_append]
  exact Or.inl (Or.inr hc)

theorem headNot_append (p : Char → Bool) (a b : Str) (h : a ≠ []) :
    headNot p (a ++ b) = headNot p a := by
  cases a with
  | nil => exact absurd rfl h
  | cons c r => rfl

theorem lastNot_append (p : Char → Bool) (a b : Str) (h : b ≠ []) :
    lastNot p (a ++ b) = lastNot p b := by
  unfold lastNot
  rw [List.reverse_append]
  exact headNot_append p b.reverse a.reverse (by simpa using h)

theorem takeWhile_append_cons (p : Char → Bool) (a : Str) (x : Char) (b : Str)
    (ha : ∀ c ∈ a, p c = true) (hx : p x = false) :
    (a ++ x :: b).takeWhile p = a ∧ (a ++ x :: b).dropWhile p = x :: b := by
  induction a with
  | nil => simp [List.takeWhile_cons, List.dropWhile_cons, hx]
  | cons c r ih =>
    have hc : p c = true := ha c (by simp)
    have ihr := ih fun d hd => ha d (by simp [hd])
    simp only [List.cons_append, List.takeWhile_cons, List.dropWhile_cons, hc,
      if_true, if_pos, ihr.1, ihr.2]
    simp

/- Helper lemmas on the dict model. -/

theorem upsert_mem (m : List (Str × Str)) (k v : Str) :
    ∀ q ∈ upsert m k v, q = (k, v) ∨ q ∈ m := by
  induction m with
  | nil => intro q hq; rw [upsert] at hq; simp at hq; exact Or.inl hq
  | cons p rest ih =>
    intro q hq
    obtain ⟨k', v'⟩ := p
    rw [upsert] at hq
    by_cases h : k' = k
    · rw [if_pos h] at hq
      rcases List.mem_cons.mp hq with rfl | h1
      · exact Or.inl rfl
      · exact Or.inr (List.mem_cons_of_mem _ h1)
    · rw [if_neg h] at hq
      rcases List.mem_cons.mp hq with rfl | h1
      · exact Or.inr (List.mem_cons_self _ _)
      · rcases ih q h1 with h2 | h2
        · exact Or.inl h2
        · exact Or.inr (List.mem_cons_of_mem _ h2)

theorem lookup_upsert (m : List (Str × Str)) (k v j : Str) :
    lookupStr (upsert m k v) j = if k = j then some v else lookupStr m j := by
  induction m with
  | nil =>
    rw [upsert]
    simp only [lookupStr]
  | cons p rest ih =>
    obtain ⟨k', v'⟩ := p
    rw [upsert]
    by_cases h : k' = k
    · rw [if_pos h]
      simp only [lookupStr]
      by_cases hj : k = j
      · simp [hj]
      · have hj' : ¬ k' = j := fun hh => hj (h ▸ hh)
        simp [hj, hj']
    · rw [if_neg h]
      simp only [lookupStr, ih]
      by_cases hj : k' = j
      · have hk : ¬ k = j := fun hh => h (hj.trans hh.symm)
        simp [hj, hk]
      · simp [hj]

/- Helper lemmas on line splitting. -/

theorem splitNl_no_nl : ∀ (s : Str), ∀ l ∈ splitNl s, '\n' ∉ l := by
  intro s
  induction s with
  | nil =>
    intro l hl
    rw [splitNl] at hl
    simp at hl
    subst hl
    simp
  | cons c cs ih =>
    intro l hl
    by_cases h : c = '\n'
    · rw [splitNl, if_pos h] at hl
      rcases List.mem_cons.mp hl with rfl | hl
      · simp
      · exact ih l hl
    · rw [splitNl, if_neg h] at hl
      cases hsp : splitNl cs with
      | nil =>
        rw [hsp] at hl
        simp at hl
        subst hl
        intro hm
        simp at hm
        exact h hm.symm
      | cons l0 ls =>
        rw [hsp] at hl
        rcases List.mem_cons.mp hl with rfl | hl
        · intro hm
          rcases List.mem_cons.mp hm with hc | hm
          · exact h hc.symm
          · exact ih l0 (by rw [hsp]; exact List.mem_cons_self _ _) hm
        · exact ih l (by rw [hsp]; exact List.mem_cons_of_mem _ hl)

theorem splitNl_of_no_nl : ∀ (l : Str), '\n' ∉ l → splitNl l = [l] := by
  intro l
  induction l with
  | nil => intro; rfl
  | cons c cs ih =>
    intro h
    have hc : ¬ c = '\n' := fun hh => h (by simp [hh])
    rw [splitNl, if_neg hc, ih fun hm => h (List.mem_cons_of_mem _ hm)]

/- Helper lemmas on processLine. -/

theorem processLine_skip_or (raw : Str) :
    processLine raw = .skip ∨ processLine raw = .bad (pyStrip raw) ∨
      processLine raw = .assign (pyStrip ((pyStrip raw).takeWhile fun c => c != '='))
        (stripQuotes (pyStrip (((pyStrip raw).dropWhile fun c => c != '=').drop 1))) := by
  rw [processLine]
  split
  · exact Or.inl rfl
  · split
    · exact Or.inl rfl
    · split
      · exact Or.inr (Or.inr rfl)
      · exact Or.inr (Or.inl rfl)

theorem processLine_assign_eq (raw k v : Str) (h : processLine raw = .assign k v) :
    k = pyStrip ((pyStrip raw).takeWhile fun c => c != '=') ∧
      v = stripQuotes (pyStrip (((pyStrip raw).dropWhile fun c => c != '=').drop 1)) ∧
      pyStrip raw ≠ [] ∧ (pyStrip raw).head? ≠ some '#' ∧ '=' ∈ pyStrip raw := by
  rw [processLine] at h
  split at h
  · exact absurd h (by simp)
  · split at h
    · exact absurd h (by simp)
    · split at h
      · cases h
        refine ⟨rfl, rfl, by assumption, by assumption, by assumption⟩
      · exact absurd h (by simp)

theorem processLine_bad_of_noEq (raw : Str) (h : noEqLine raw) :
    processLine raw = .bad (pyStrip raw) := by
  obtain ⟨h1, h2, h3⟩ := h
  rw [processLine]
  rw [if_neg h1, if_neg h2, if_neg h3]

theorem processLine_not_bad (raw : Str) (h : ¬ noEqLine raw) :
    ∀ b, processLine raw ≠ .bad b := by
  intro b hb
  rw [processLine] at hb
  split at hb
  · exact absurd hb (by simp)
  · split at hb
    · exact absurd hb (by simp)
    · split at hb
      · exact absurd hb (by simp)
      · exact h ⟨by assumption, by assumption, by assumption⟩

theorem processLine_assign_good (raw k v : Str) (h : processLine raw = .assign k v)
    (hnl : '\n' ∉ raw) : KeyGood k ∧ ValGood v := by
  obtain ⟨hk, hv, hne, hhash, _hmem⟩ := processLine_assign_eq raw k v h
  constructor
  · refine ⟨?_, ?_, ?_, ?_⟩
    · rw [hk]
      exact pyStripChars_fix isPySpace _ (pyStripChars_headNot _ _) (pyStripChars_lastNot _ _)
    · intro hm
      rw [hk] at hm
      have h1 := pyStripChars_subset isPySpace _ '=' hm
      have h2 := List.mem_takeWhile_imp h1
      simp at h2
    · cases hLc : pyStrip raw with
      | nil => exact absurd hLc hne
      | cons x L' =>
        have hLhead : headNot isPySpace (pyStrip raw) = true :=
          pyStripChars_headNot isPySpace raw
        have hxws : isPySpace x = false := by
          rw [hLc] at hLhead
          simpa [headNot] using hLhead
        have hxhash : x ≠ '#' := by
          intro hx
          exact hhash (by rw [hLc, hx]; rfl)
        by_cases hx : (x != '=') = true
        · have htkc : (pyStrip raw).takeWhile (fun c => c != '=') =
              x :: (L'.takeWhile fun c => c != '=') := by
            rw [hLc, List.takeWhile_cons, if_pos hx]
          obtain ⟨pre, post, hpre, _hpost, hdec⟩ :=
            pyStripChars_decomp isPySpace ((pyStrip raw).takeWhile fun c => c != '=')
          rw [show pyStripChars isPySpace ((pyStrip raw).takeWhile fun c => c != '=') =
            pyStrip ((pyStrip raw).takeWhile fun c => c != '=') from rfl, ← hk] at hdec
          cases hkc : k with
          | nil => rfl
          | cons c r =>
            cases hprec : pre with
            | nil =>
              rw [hprec, hkc, htkc] at hdec
              simp at hdec
              have hcx : x = c := hdec.1
              simp [headNot, ← hcx, hxhash]
            | cons p0 ps =>
              rw [hprec, htkc] at hdec
              simp at hdec
              have hp0 : p0 = x := hdec.1.symm
              have := hpre p0 (by rw [hprec]; exact List.mem_cons_self _ _)
              rw [hp0, hxws] at this
              cases this
        · have htkn : (pyStrip raw).takeWhile (fun c => c != '=') = [] := by
            rw [hLc, List.takeWhile_cons, if_neg hx]
          rw [hk, htkn]
          rfl
    · intro hm
      rw [hk] at hm
      have h1 := pyStripChars_subset isPySpace _ '\n' hm
      have h2 : '\n' ∈ pyStrip raw := (List.takeWhile_sublist _).subset h1
      exact hnl (pyStripChars_subset isPySpace raw '\n' h2)
  · refine ⟨?_, ?_, ?_⟩
    · rw [hv]
      exact pyStripChars_headNot isQuote _
    · rw [hv]
      exact pyStripChars_lastNot isQuote _
    · intro hm
      rw [hv] at hm
      have h1 := pyStripChars_subset isQuote _ '\n' hm
      have h2 := pyStripChars_subset isPySpace _ '\n' h1
      have h3 : '\n' ∈ (pyStrip raw).dropWhile (fun c => c != '=') :=
        (List.drop_sublist _ _).subset h2
      have h4 : '\n' ∈ pyStrip raw := (List.dropWhile_sublist _).subset h3
      exact hnl (pyStripChars_subset isPySpace raw '\n' h4)

/- Helper lemmas on the parse loop. -/

theorem parseLines_good : ∀ (ls : List Str) (n : Nat) (acc m : List (Str × Str)),
    parseLines n ls acc = .ok m → (∀ l ∈ ls, '\n' ∉ l) →
    (∀ q ∈ acc, KeyGood q.1 ∧ ValGood q.2) → ∀ q ∈ m, KeyGood q.1 ∧ ValGood q.2 := by
  intro ls
  induction ls with
  | nil =>
    intro n acc m h _ hacc
    rw [parseLines] at h
    cases h
    exact hacc
  | cons l rest ih =>
    intro n acc m h hnl hacc
    rw [parseLines] at h
    cases hp : processLine l with
    | skip =>
      rw [hp] at h
      exact ih _ _ _ h (fun x hx => hnl x (List.mem_cons_of_mem _ hx)) hacc
    | bad b =>
      rw [hp] at h
      exact absurd h (by simp)
    | assign k v =>
      rw [hp] at h
      have hgood := processLine_assign_good l k v hp (hnl l (List.mem_cons_self _ _))
      refine ih _ _ _ h (fun x hx => hnl x (List.mem_cons_of_mem _ hx)) ?_
      intro q hq
      rcases upsert_mem acc k v q hq with rfl | hq2
      · exact hgood
      · exact hacc q hq2

theorem parse_env_file_good (content : Str) (m : List (Str × Str))
    (h : parse_env_file content = .ok m) : ∀ q ∈ m, KeyGood q.1 ∧ ValGood q.2 :=
  parseLines_good _ 1 [] m h (splitNl_no_nl content) (by intro q hq; simp at hq)

theorem parseLines_error_at : ∀ (ls : List Str) (n : Nat) (acc : List (Str × Str)) (i : Nat)
    (hi : i < ls.length), (∀ l ∈ ls.take i, ¬ noEqLine l) → noEqLine (ls.get ⟨i, hi⟩) →
    parseLines n ls acc = .error (errMsg (n + i) (pyStrip (ls.get ⟨i, hi⟩))) := by
  intro ls
  induction ls with
  | nil =>
    intro n acc i hi
    exact absurd hi (by simp)
  | cons l rest ih =>
    intro n acc i hi hpre hbad
    cases i with
    | zero =>
      rw [parseLines, processLine_bad_of_noEq l hbad]
      rfl
    | succ i' =>
      have hl : ¬ noEqLine l := hpre l (by simp)
      have hi' : i' < rest.length := by simpa using hi
      have hpre' : ∀ x ∈ rest.take i', ¬ noEqLine x := by
        intro x hx
        refine hpre x ?_
        rw [List.take_succ_cons]
        exact List.mem_cons_of_mem _ hx
      have harith : n + 1 + i' = n + (i' + 1) := by omega
      rw [parseLines]
      cases hp : processLine l with
      | bad b => exact absurd hp (processLine_not_bad l hl b)
      | skip =>
        have := ih (n + 1) acc i' hi' hpre' hbad
        rw [harith] at this
        exact this
      | assign k v =>
        have := ih (n + 1) (upsert acc k v) i' hi' hpre' hbad
        rw [harith] at this
        exact this

theorem parseLines_lookup : ∀ (ls : List Str) (n : Nat) (acc m : List (Str × Str)),
    parseLines n ls acc = .ok m → ∀ j,
      lookupStr m j = (match lastAssign ls j with
        | some v => some v
        | none => lookupStr acc j) := by
  intro ls
  induction ls with
  | nil =>
    intro n acc m h j
    rw [parseLines] at h
    cases h
    rw [lastAssign]
  | cons l rest ih =>
    intro n acc m h j
    rw [parseLines] at h
    rw [lastAssign]
    cases hp : processLine l with
    | skip =>
      rw [hp] at h
      have := ih _ _ _ h j
      cases hla : lastAssign rest j with
      | some w => rw [hla] at this; simpa using this
      | none => rw [hla] at this; simpa using this
    | bad b =>
      rw [hp] at h
      exact absurd h (by simp)
    | assign k v =>
      rw [hp] at h
      have := ih _ _ _ h j
      cases hla : lastAssign rest j with
      | some w => rw [hla] at this; simpa using this
      | none =>
        rw [hla] at this
        simp only at this
        rw [lookup_upsert] at this
        by_cases hkj : k = j
        · rw [if_pos hkj] at this
          simpa [hkj] using this
        · rw [if_neg hkj] at this
          simpa [hkj] using this

theorem parse_env_file_lookup (content : Str) (m : List (Str × Str))
    (h : parse_env_file content = .ok m) (j : Str) :
    lookupStr m j = lastAssign (splitNl content) j := by
  have hx := parseLines_lookup _ 1 [] m h j
  cases hla : lastAssign (splitNl content) j with
  | some w => rw [hla] at hx; simpa using hx
  | none => rw [hla] at hx; simpa [lookupStr] using hx

/- Helper lemmas on the integer shape. -/

theorem getLastNe_cons (d : Char) (hd : ¬ d = '_') (r : Str) :
    ((d :: r).getLast? != some '_') = (r.getLast? != some '_') := by
  cases r with
  | nil =>
    rw [List.getLast?_singleton]
    show _ = true
    simp [bne_iff_ne, hd]
  | cons e r' => rw [List.getLast?_cons_cons]

theorem noAdj_cons (d : Char) (hd : ¬ d = '_') (r : Str) :
    noAdjUnderscore (d :: r) = noAdjUnderscore r := by
  cases r with
  | nil => rfl
  | cons e r' => simp [noAdjUnderscore, hd]

theorem digitsCore_eq : ∀ (r : Str),
    digitsCore r = (r.all (fun c => c.isDigit || c = '_') &&
      (r.getLast? != some '_') && noAdjUnderscore r) := by
  intro r
  induction r using digitsCore.induct with
  | case1 => decide
  | case2 => decide
  | case3 d r' ih =>
    have h1 : digitsCore ('_' :: d :: r') = (d.isDigit && digitsCore r') := rfl
    have e0 : ('_' : Char).isDigit = false := by decide
    have e1 : (decide (('_' : Char) = '_')) = true := by decide
    rw [h1, ih]
    by_cases hd : d = '_'
    · subst hd
      rw [Bool.eq_iff_iff]
      simp [noAdjUnderscore, e0, e1]
    · have hdneg : (decide (d = '_')) = false := by simp [hd]
      have hna : noAdjUnderscore ('_' :: d :: r') = noAdjUnderscore r' := by
        have hna2 : noAdjUnderscore ('_' :: d :: r') =
            (!(decide (('_' : Char) = '_') && decide (d = '_')) && noAdjUnderscore (d :: r')) :=
          rfl
        rw [hna2, e1, hdneg, noAdj_cons d hd r']
        simp
      rw [List.getLast?_cons_cons, getLastNe_cons d hd r', hna]
      rw [Bool.eq_iff_iff]
      by_cases hdd : d.isDigit
      · simp [List.all_cons, hdd, e0, e1, hdneg]
      · simp [List.all_cons, hdd, hdneg]
  | case4 c cs hc ih =>
    have h1 : digitsCore (c :: cs) = (c.isDigit && digitsCore cs) := by
      unfold digitsCore
      rw [if_neg hc, ← digitsCore.eq_def]
    rw [h1, ih, getLastNe_cons c hc cs, noAdj_cons c hc cs]
    rw [Bool.eq_iff_iff]
    by_cases hdd : c.isDigit
    · simp [List.all_cons, hdd]
    · simp [List.all_cons, hdd, hc]

theorem digitsUnderscoreOk_eq (t : Str) :
    digitsUnderscoreOk t = (!t.isEmpty && t.all (fun c => c.isDigit || c = '_') &&
      (t.head? != some '_') && (t.getLast? != some '_') && noAdjUnderscore t) := by
  cases t with
  | nil => rfl
  | cons c r =>
    have h1 : digitsUnderscoreOk (c :: r) = (c.isDigit && digitsCore r) := rfl
    rw [h1, digitsCore_eq r]
    by_cases hc : c = '_'
    · subst hc
      have hdig : ('_' : Char).isDigit = false := by decide
      rw [Bool.eq_iff_iff]
      simp [hdig]
    · rw [getLastNe_cons c hc r, noAdj_cons c hc r]
      rw [Bool.eq_iff_iff]
      by_cases hdd : c.isDigit
      · simp [List.all_cons, hdd, hc]
      · simp [List.all_cons, hdd, hc]

theorem pyIntOk_eq_amended (s : Str) : pyIntOk s = amendedIntShape s := by
  simp only [pyIntOk, amendedIntShape]
  cases h : pyStrip s with
  | nil => rfl
  | cons c r =>
    simp only []
    split
    next => exact digitsUnderscoreOk_eq r
    next => exact digitsUnderscoreOk_eq (c :: r)

/- Helper lemmas on validate_type and validate_env. -/

theorem validate_type_dyn_ystr (v s : Str) :
    validate_type_dyn v (.ystr s) = validate_type v s := by
  by_cases h1 : s = ( "string").toList
  · simp [validate_type_dyn, validate_type, yvalIsStr, h1]
  · by_cases h2 : s = ( "int").toList
    · simp [validate_type_dyn, validate_type, yvalIsStr, h1, h2]
    · by_cases h3 : s = ( "bool").toList
      · simp [validate_type_dyn, validate_type, yvalIsStr, h1, h2, h3]
      · simp [validate_type_dyn, validate_type, yvalIsStr, h1, h2, h3]

theorem required_read (m : List (Str × YVal))
    (h : optBoolShape (pyDictGet m (( "required").toList)) = true) :
    pyTruthy ((pyDictGet m (( "required").toList)).getD (.ybool false)) = ruleRequired m := by
  cases hx : pyDictGet m (( "required").toList) with
  | none => rw [ruleRequired, hx]; rfl
  | some x =>
    rw [hx] at h
    rw [ruleRequired, hx]
    cases x with
    | ybool b => rfl
    | ynull => simp [optBoolShape] at h
    | yint n => simp [optBoolShape] at h
    | ystr s => simp [optBoolShape] at h
    | ymap mm => simp [optBoolShape] at h

theorem type_read (m : List (Str × YVal))
    (h : optStrShape (pyDictGet m (( "type").toList)) = true) :
    (pyDictGet m (( "type").toList)).getD (.ystr (( "string").toList)) =
      .ystr (ruleType m) := by
  cases hx : pyDictGet m (( "type").toList) with
  | none => rw [ruleType, hx]; rfl
  | some x =>
    rw [hx] at h
    rw [ruleType, hx]
    cases x with
    | ystr s => rfl
    | ynull => simp [optStrShape] at h
    | yint n => simp [optStrShape] at h
    | ybool b => simp [optStrShape] at h
    | ymap mm => simp [optStrShape] at h

theorem validate_env_go_cons (env : List (Str × Str)) (name : Str)
    (m : List (Str × YVal)) (rest : List (Str × YVal)) (errors : List Str) :
    validate_env_go env ((name, .ymap m) :: rest) errors =
      (match lookupStr env name with
       | none =>
         if pyTruthy ((pyDictGet m (( "required").toList)).getD (.ybool false))
         then validate_env_go env rest (errors ++ [missingMsg name])
         else validate_env_go env rest errors
       | some value =>
         if validate_type_dyn value
             ((pyDictGet m (( "type").toList)).getD (.ystr (( "string").toList)))
         then validate_env_go env rest errors
         else validate_env_go env rest (errors ++
           [typeMsg name
             (pyStr ((pyDictGet m (( "type").toList)).getD (.ystr (( "string").toList))))
             value])) := by
  rw [validate_env_go]

theorem specEntryError_ymap (env : List (Str × Str)) (name : Str)
    (m : List (Str × YVal)) :
    specEntryError env (name, .ymap m) =
      (match lookupStr env name with
       | none => if ruleRequired m then some (missingMsg name) else none
       | some v =>
         if validate_type v (ruleType m) then none
         else some (typeMsg name (ruleType m) v)) := rfl

theorem validate_env_go_eq (env : List (Str × Str)) :
    ∀ (schema : List (Str × YVal)) (errors : List Str),
      (∀ p ∈ schema, ruleShape p.2 = true) →
      validate_env_go env schema errors =
        .ok (errors ++ schema.filterMap (specEntryError env)) := by
  intro schema
  induction schema with
  | nil =>
    intro errors _
    rw [validate_env_go]
    simp
  | cons entry rest ih =>
    intro errors hshape
    obtain ⟨name, rules⟩ := entry
    have hr : ruleShape rules = true := hshape (name, rules) (List.mem_cons_self _ _)
    have hrest : ∀ p ∈ rest, ruleShape p.2 = true := fun p hp =>
      hshape p (List.mem_cons_of_mem _ hp)
    cases rules with
    | ynull => exact absurd hr (by simp [ruleShape])
    | ybool b => exact absurd hr (by simp [ruleShape])
    | yint n => exact absurd hr (by simp [ruleShape])
    | ystr s => exact absurd hr (by simp [ruleShape])
    | ymap m =>
      have hr2 : optBoolShape (pyDictGet m (( "required").toList)) = true ∧
          optStrShape (pyDictGet m (( "type").toList)) = true := by
        simpa [ruleShape] using hr
      have hreq := hr2.1
      have hty := hr2.2
      rw [validate_env_go_cons env name m rest errors, required_read m hreq, type_read m hty,
        List.filterMap_cons, specEntryError_ymap env name m]
      have ihh : ∀ e, validate_env_go env rest e =
          .ok (e ++ rest.filterMap (specEntryError env)) := fun e => ih e hrest
      cases hl : lookupStr env name with
      | none =>
        by_cases hreq2 : ruleRequired m = true
        · simp [hreq2, ihh]
        · simp [hreq2, ihh]
      | some value =>
        by_cases hvt : validate_type value (ruleType m) = true
        · simp [validate_type_dyn_ystr, hvt, ihh]
        · simp [validate_type_dyn_ystr, hvt, ihh, pyStr]

theorem validate_env_eq (env : List (Str × Str)) (schema : List (Str × YVal))
    (h : ∀ p ∈ schema, ruleShape p.2 = true) :
    validate_env env schema = .ok (schema.filterMap (specEntryError env)) := by
  rw [validate_env, validate_env_go_eq env schema [] h]
  simp

/- Helper lemmas on filling defaults. -/

theorem pyDictGet_pair_req (x y : YVal) :
    pyDictGet [((( "required").toList), x), ((( "type").toList), y)] (( "required").toList) =
      some x := by
  rw [pyDictGet, if_pos rfl]

theorem pyDictGet_pair_ty (x y : YVal) :
    pyDictGet [((( "required").toList), x), ((( "type").toList), y)] (( "type").toList) =
      some y := by
  rw [pyDictGet, if_neg (by decide), pyDictGet, if_pos rfl]

theorem fillRule_shape (p : Str × YVal) (h : ruleShape p.2 = true) :
    ruleShape (fillRule p).2 = true := by
  obtain ⟨n, r⟩ := p
  cases r with
  | ynull => exact h
  | ybool b => exact h
  | yint i => exact h
  | ystr s => exact h
  | ymap m =>
    have h2 : optBoolShape (pyDictGet m (( "required").toList)) = true ∧
        optStrShape (pyDictGet m (( "type").toList)) = true := by
      simpa [ruleShape] using h
    simp only [fillRule, ruleShape]
    rw [pyDictGet_pair_req, pyDictGet_pair_ty]
    have hb : optBoolShape (some ((pyDictGet m (( "required").toList)).getD (.ybool false))) =
        true := by
      cases hx : pyDictGet m (( "required").toList) with
      | none => rfl
      | some x =>
        have := h2.1
        rw [hx] at this
        exact this
    have hs : optStrShape (some ((pyDictGet m
        (( "type").toList)).getD (.ystr (( "string").toList)))) = true := by
      cases hx : pyDictGet m (( "type").toList) with
      | none => rfl
      | some x =>
        have := h2.2
        rw [hx] at this
        exact this
    rw [hb, hs]
    rfl

theorem fillRule_spec (env : List (Str × Str)) (p : Str × YVal) :
    specEntryError env (fillRule p) = specEntryError env p := by
  obtain ⟨n, r⟩ := p
  cases r with
  | ynull => rfl
  | ybool b => rfl
  | yint i => rfl
  | ystr s => rfl
  | ymap m =>
    have hrr : ruleRequired
        [((( "required").toList), (pyDictGet m (( "required").toList)).getD (.ybool false)),
         ((( "type").toList), (pyDictGet m (( "type").toList)).getD (.ystr (( "string").toList)))] =
        ruleRequired m := by
      rw [ruleRequired, ruleRequired, pyDictGet_pair_req]
      cases hx : pyDictGet m (( "required").toList) with
      | none => rfl
      | some x => rfl
    have hrt : ruleType
        [((( "required").toList), (pyDictGet m (( "required").toList)).getD (.ybool false)),
         ((( "type").toList), (pyDictGet m (( "type").toList)).getD (.ystr (( "string").toList)))] =
        ruleType m := by
      rw [ruleType, ruleType, pyDictGet_pair_ty]
      cases hx : pyDictGet m (( "type").toList) with
      | none => rfl
      | some x => rfl
    simp only [fillRule]
    rw [specEntryError_ymap, specEntryError_ymap, hrr, hrt]

/- The claim theorems. -/

/-- C1 counterexample: the claimed characterisation of the int branch of
validate_type fails at the input plus-five: Python int() accepts an
optional leading plus sign, which the claimed shape (an optional minus sign
followed by digits only) rejects. -/
theorem validate_type_int_plus_counterexample :
    validate_type (( "+5").toList) (( "int").toList) = true ∧
      claimedIntShape (( "+5").toList) = false := by
  refine ⟨by rfl, by rfl⟩

/-- C1 (amended): validate_type value int is true exactly when the value,
after stripping surrounding whitespace, is an optional plus or minus sign
followed by one or more decimal digits with single underscores allowed
between digits. -/
theorem validate_type_int_characterization (v : Str) :
    validate_type v (( "int").toList) = amendedIntShape v := by
  rw [validate_type, if_neg (by decide), if_pos rfl]
  exact pyIntOk_eq_amended v

/-- C8: validate_type accepts every value at type string, accepts a value
at type bool exactly when its lowercase form is one of true, false, 1, 0,
yes, no, and accepts every value at every kind other than string, int and
bool. -/
theorem validate_type_string_bool_default (v : Str) :
    validate_type v (( "string").toList) = true ∧
    (validate_type v (( "bool").toList) = true ↔ pyLower v ∈ boolWords) ∧
    (∀ kind : Str, kind ≠ ( "string").toList → kind ≠ ( "int").toList →
      kind ≠ ( "bool").toList → validate_type v kind = true) := by
  refine ⟨?_, ?_, ?_⟩
  · rw [validate_type, if_pos rfl]
  · rw [validate_type, if_neg (by decide), if_neg (by decide), if_pos rfl]
    exact decide_eq_true_iff
  · intro kind h1 h2 h3
    rw [validate_type, if_neg h1, if_neg h2, if_neg h3]

/-- C8 witness: an unknown kind such as float always validates. -/
theorem validate_type_string_bool_default_witness :
    validate_type (( "x").toList) (( "float").toList) = true :=
  (validate_type_string_bool_default (( "x").toList)).2.2 (( "float").toList)
    (by decide) (by decide) (by decide)

/-- C2: on a schema of well-typed rule mappings, validate_env succeeds and
returns exactly the errors the spec attributes to the schema entries, one
optional error per entry in schema order: a missing message for an absent
required variable, a type message for a present variable failing its rule
type (defaulting to string), and nothing else, so no error can mention a
variable outside the schema. -/
theorem validate_env_errors_characterization (env : List (Str × Str))
    (schema : List (Str × YVal)) (h : ∀ p ∈ schema, ruleShape p.2 = true) :
    validate_env env schema = .ok (schema.filterMap (specEntryError env)) :=
  validate_env_eq env schema h

/-- C2 witness: one missing required variable and one int type failure
produce exactly the two expected messages in schema order. -/
theorem validate_env_errors_characterization_witness :
    validate_env [(( "PORT").toList, ( "abc").toList)]
      [(( "FOO").toList, .ymap [((( "required").toList), .ybool true)]),
       (( "PORT").toList, .ymap [((( "type").toList), .ystr (( "int").toList))])] =
      .ok [missingMsg (( "FOO").toList),
           typeMsg (( "PORT").toList) (( "int").toList) (( "abc").toList)] := by
  rw [validate_env_errors_characterization
    [(( "PORT").toList, ( "abc").toList)]
    [(( "FOO").toList, .ymap [((( "required").toList), .ybool true)]),
     (( "PORT").toList, .ymap [((( "type").toList), .ystr (( "int").toList))])]
    (by decide)]
  rfl

/-- C7: on any schema whose values are all rule mappings with optional
boolean required and string type fields, validate_env raises nothing (the
error branch modelling a Python exception is not taken), and its result is
unchanged when the missing fields are written out as the defaults required
= false and type = string. -/
theorem validate_env_total_on_rule_maps (env : List (Str × Str))
    (schema : List (Str × YVal)) (h : ∀ p ∈ schema, ruleShape p.2 = true) :
    (validate_env env schema).isOk = true ∧
      validate_env env schema = validate_env env (fillDefaults schema) := by
  have hfill : ∀ p ∈ fillDefaults schema, ruleShape p.2 = true := by
    intro p hp
    rw [fillDefaults] at hp
    obtain ⟨q, hq, rfl⟩ := List.mem_map.mp hp
    exact fillRule_shape q (h q hq)
  rw [validate_env_eq env schema h, validate_env_eq env (fillDefaults schema) hfill]
  refine ⟨rfl, ?_⟩
  rw [fillDefaults, List.filterMap_map]
  have he : List.filterMap (specEntryError env ∘ fillRule) schema =
      List.filterMap (specEntryError env) schema :=
    List.filterMap_congr fun p _ => fillRule_spec env p
  rw [he]

/-- C7 witness: a rule mapping with only a required field is processed
without failure and behaves like its default-filled form. -/
theorem validate_env_total_on_rule_maps_witness :
    (validate_env [] [(( "FOO").toList, .ymap [((( "required").toList), .ybool true)])]).isOk
        = true ∧
      validate_env [] [(( "FOO").toList, .ymap [((( "required").toList), .ybool true)])] =
        validate_env []
          (fillDefaults [(( "FOO").toList, .ymap [((( "required").toList), .ybool true)])]) :=
  validate_env_total_on_rule_maps []
    [(( "FOO").toList, .ymap [((( "required").toList), .ybool true)])] (by decide)

/-- C5 counterexample: the line with an empty left side of the equals sign
parses successfully and binds the empty key, so not every key of a
successful parse is non-empty. -/
theorem parse_empty_key_counterexample :
    parse_env_file (( "=v").toList) = .ok [(([] : Str), ( "v").toList)] := by rfl

/-- C5 (amended): every key of a successful parse is whitespace-trimmed and
contains no equals sign; keys can be empty. -/
theorem parse_keys_trimmed (content : Str) (m : List (Str × Str))
    (h : parse_env_file content = .ok m) :
    ∀ q ∈ m, pyStrip q.1 = q.1 ∧ '=' ∉ q.1 := by
  intro q hq
  have hg := parse_env_file_good content m h q hq
  exact ⟨hg.1.1, hg.1.2.1⟩

/-- C5 witness: the key of a simple assignment is trimmed and free of
equals signs. -/
theorem parse_keys_trimmed_witness :
    pyStrip (( "A").toList) = ( "A").toList ∧ '=' ∉ (( "A").toList) :=
  parse_keys_trimmed (( "A=1").toList) [(( "A").toList, ( "1").toList)] (by rfl)
    ((( "A").toList, ( "1").toList)) (List.mem_singleton_self _)

/-- C10 counterexample: quote stripping can expose whitespace, so a parsed
value can start with a whitespace character. -/
theorem parse_value_whitespace_counterexample :
    parse_env_file (( "K=\" a \"").toList) = .ok [(( "K").toList, ( " a ").toList)] ∧
      (( " a ").toList).head? = some ' ' ∧ isPySpace ' ' = true := by
  refine ⟨by rfl, by rfl, by rfl⟩

/-- C10 (amended): every value of a successful parse neither starts nor
ends with a quote character; it can start or end with whitespace. -/
theorem parse_values_no_quote_ends (content : Str) (m : List (Str × Str))
    (h : parse_env_file content = .ok m) :
    ∀ q ∈ m, headNot isQuote q.2 = true ∧ lastNot isQuote q.2 = true := by
  intro q hq
  have hg := parse_env_file_good content m h q hq
  exact ⟨hg.2.1, hg.2.2.1⟩

/-- C10 witness: a quoted value comes back without its quotes. -/
theorem parse_values_no_quote_ends_witness :
    headNot isQuote (( "b").toList) = true ∧ lastNot isQuote (( "b").toList) = true :=
  parse_values_no_quote_ends (( "A=\"b\"").toList) [(( "A").toList, ( "b").toList)] (by rfl)
    ((( "A").toList, ( "b").toList)) (List.mem_singleton_self _)

/-- C9: the mapping of a successful parse binds every key to the value of
the last line assigning it: lookup in the result equals the last
assignment over the lines of the input. -/
theorem parse_last_assignment_wins (content : Str) (m : List (Str × Str))
    (h : parse_env_file content = .ok m) (k : Str) :
    lookupStr m k = lastAssign (splitNl content) k :=
  parse_env_file_lookup content m h k

/-- C9 witness: with the same key assigned twice the parse yields the later
value. -/
theorem parse_last_assignment_wins_witness :
    lookupStr [(( "FOO").toList, ( "b").toList)] (( "FOO").toList) =
      lastAssign (splitNl (( "FOO=a\nFOO=b").toList)) (( "FOO").toList) :=
  parse_last_assignment_wins (( "FOO=a\nFOO=b").toList)
    [(( "FOO").toList, ( "b").toList)] (by rfl) (( "FOO").toList)

/-- C4 counterexample: the parse error message interpolates the stripped
line, not the raw line: for a raw line with leading whitespace and no
equals sign, the raw text is not contained in the message. -/
theorem parse_error_trimmed_line_counterexample :
    parse_env_file (( "  BAD").toList) = .error (errMsg 1 (( "BAD").toList)) ∧
      ¬ (( "  BAD").toList <:+: errMsg 1 (( "BAD").toList)) := by
  refine ⟨by rfl, by decide⟩

/-- C4 (amended): when the first offending line, the one that survives
trimming and comment and blank filtering but has no equals sign, is line
i plus one, parse_env_file fails with the message naming that 1-based line
number and the trimmed content of that line, and returns no mapping. -/
theorem parse_error_first_bad_line (content : Str) (i : Nat)
    (hi : i < (splitNl content).length)
    (hpre : ∀ l ∈ (splitNl content).take i, ¬ noEqLine l)
    (hbad : noEqLine ((splitNl content).get ⟨i, hi⟩)) :
    parse_env_file content =
      .error (errMsg (i + 1) (pyStrip ((splitNl content).get ⟨i, hi⟩))) := by
  have h := parseLines_error_at (splitNl content) 1 [] i hi hpre hbad
  rw [Nat.add_comm 1 i] at h
  exact h

/-- C4 witness: the second line of a two-line file, with no equals sign,
raises the error naming line two and its trimmed text. -/
theorem parse_error_first_bad_line_witness :
    parse_env_file (( "A=1\n  no eq").toList) = .error (errMsg 2 (( "no eq").toList)) := by
  have h := parse_error_first_bad_line (( "A=1\n  no eq").toList) 1 (by decide)
    (by decide) (by decide)
  exact h

/-- C6: the value of every assignment line is the whitespace-trimmed text
after the first equals sign with a run of quote characters removed from
each end independently, matched or not, leaving no quote character at
either end. -/
theorem parse_value_quote_trimming (raw k v : Str) (h : processLine raw = .assign k v) :
    ∃ pre post, (∀ c ∈ pre, isQuote c = true) ∧ (∀ c ∈ post, isQuote c = true) ∧
      pyStrip (((pyStrip raw).dropWhile fun c => c != '=').drop 1) = pre ++ v ++ post ∧
      headNot isQuote v = true ∧ lastNot isQuote v = true := by
  obtain ⟨_, hv, _, _, _⟩ := processLine_assign_eq raw k v h
  obtain ⟨pre, post, hpre, hpost, hdec⟩ :=
    pyStripChars_decomp isQuote (pyStrip (((pyStrip raw).dropWhile fun c => c != '=').drop 1))
  refine ⟨pre, post, hpre, hpost, ?_, ?_, ?_⟩
  · rw [hv]
    exact hdec
  · rw [hv]
    exact pyStripChars_headNot isQuote _
  · rw [hv]
    exact pyStripChars_lastNot isQuote _

/-- C6 witness: a value written with one leading double quote and one
trailing single quote loses both and parses to the bare word. -/
theorem parse_value_quote_trimming_witness :
    ∃ pre post, (∀ c ∈ pre, isQuote c = true) ∧ (∀ c ∈ post, isQuote c = true) ∧
      pyStrip (((pyStrip (( "K=\"bar\x27").toList)).dropWhile fun c => c != '=').drop 1) =
        pre ++ ( "bar").toList ++ post ∧
      headNot isQuote (( "bar").toList) = true ∧
      lastNot isQuote (( "bar").toList) = true :=
  parse_value_quote_trimming (( "K=\"bar\x27").toList) (( "K").toList) (( "bar").toList)
    (by decide)

/-- C3 counterexample: restripping is not idempotent: a value quoted around
inner whitespace parses to text with whitespace at its ends, and parsing
that text again trims the whitespace away, yielding a different value. -/
theorem parse_value_restrip_counterexample :
    parse_env_file (( "KEY=\" bar \"").toList) =
        .ok [(( "KEY").toList, ( " bar ").toList)] ∧
      parse_env_file (( "KEY= bar ").toList) = .ok [(( "KEY").toList, ( "bar").toList)] ∧
      ( " bar ").toList ≠ ( "bar").toList := by
  refine ⟨by rfl, by rfl, by decide⟩

/-- C3 (amended): restripping is idempotent for values that neither start
nor end with whitespace: if a parse yields exactly the binding of key k to
value v and v has no whitespace at either end, then parsing the line made
of k, an equals sign and v yields the same binding again. -/
theorem parse_value_restrip_idempotent (content k v : Str)
    (h : parse_env_file content = .ok [(k, v)])
    (h1 : headNot isPySpace v = true) (h2 : lastNot isPySpace v = true) :
    parse_env_file (k ++ '=' :: v) = .ok [(k, v)] := by
  have hg := parse_env_file_good content [(k, v)] h (k, v) (List.mem_singleton_self _)
  obtain ⟨⟨hks, hkeq, hkhash, hknl⟩, hvq1, hvq2, hvnl⟩ := hg
  simp only at hks hkeq hkhash hknl hvq1 hvq2 hvnl
  have hnl : ('\n' : Char) ∉ (k ++ '=' :: v) := by
    intro hm
    rcases List.mem_append.mp hm with hm | hm
    · exact hknl hm
    · rcases List.mem_cons.mp hm with hc | hm
      · exact absurd hc (by decide)
      · exact hvnl hm
  rw [parse_env_file, splitNl_of_no_nl _ hnl]
  have hkhead : headNot isPySpace k = true := by
    cases k with
    | nil => rfl
    | cons c r =>
      have hh := pyStripChars_headNot isPySpace (c :: r)
      rw [show pyStripChars isPySpace (c :: r) = pyStrip (c :: r) from rfl, hks] at hh
      exact hh
  have hL1 : pyStrip (k ++ '=' :: v) = (k ++ '=' :: v) := by
    apply pyStripChars_fix
    · cases k with
      | nil => rfl
      | cons c r =>
        rw [headNot_append _ _ _ (by simp)]
        exact hkhead
    · cases hvtail : v with
      | nil =>
        rw [lastNot_append _ _ _ (by simp)]
        rfl
      | cons c r =>
        rw [lastNot_append _ _ _ (by simp)]
        rw [show ('=' :: (c :: r) : Str) = ['='] ++ (c :: r) from rfl,
          lastNot_append _ _ _ (by simp), ← hvtail]
        exact h2
  have hLne : ¬ (k ++ '=' :: v = ([] : Str)) := by simp
  have hLhash : ¬ ((k ++ '=' :: v).head? = some '#') := by
    cases k with
    | nil => simp
    | cons c r =>
      intro hh
      simp at hh
      have hk3 : (!(decide (c = '#'))) = true := hkhash
      rw [hh] at hk3
      simp at hk3
  have hmem : '=' ∈ k ++ '=' :: v := List.mem_append_right _ (List.mem_cons_self _ _)
  have hka : ∀ c ∈ k, ((c != '=') = true) := by
    intro c hc
    rw [bne_iff_ne]
    intro hh
    subst hh
    exact hkeq hc
  have htd := takeWhile_append_cons (fun c => c != '=') k '=' v hka (by decide)
  have hassign : processLine (k ++ '=' :: v) = .assign k v := by
    simp only [processLine]
    rw [hL1, if_neg hLne, if_neg hLhash, if_pos hmem, htd.1, htd.2]
    rw [show (('=' :: v).drop 1 : Str) = v from rfl]
    rw [hks, show pyStrip v = pyStripChars isPySpace v from rfl,
      pyStripChars_fix isPySpace v h1 h2]
    rw [show stripQuotes v = pyStripChars isQuote v from rfl,
      pyStripChars_fix isQuote v hvq1 hvq2]
  rw [parseLines, hassign, parseLines]
  rfl

/-- C3 witness: a plain unquoted value parses back to itself. -/
theorem parse_value_restrip_idempotent_witness :
    parse_env_file (( "K").toList ++ '=' :: ( "abc").toList) =
      .ok [(( "K").toList, ( "abc").toList)] :=
  parse_value_restrip_idempotent (( "K=abc").toList) (( "K").toList) (( "abc").toList)
    (by rfl) (by rfl) (by rfl)

end EnvAudit
